import Mathlib

/-!
# serial_jp.c : a shallow embedding of the polled/interrupt OMAP serial driver

The driver talks to three kinds of collaborators that are not part of its source:
the UART registers (through `readl`/`writel`), the serial core (`uart_insert_char`,
`uart_handle_break`, `uart_add_one_port`, ...) and the resource layer
(`devm_request_mem_region`, `devm_ioremap`, ...).  Every call to a collaborator is
recorded as an `Event`; every value a collaborator hands back is an input of the
embedded function.  A driver function therefore becomes a pure function from the
port state and the answers of its collaborators to the new port state and the list
of events it emitted, in program order.

Machine integers are natural numbers: the `__u32` counters of `struct uart_icount`
wrap modulo `2 ^ 32`, a `char` holds the low eight bits of what is stored into it.
-/

namespace SerialJp

/-! ## Constants

The driver takes these from the kernel headers `<linux/serial_reg.h>` (register
offsets and bits of the 16550 and of the OMAP extension), `<linux/tty_flip.h>`
(insertion flags), `<linux/errno.h>` and `<linux/serial_core.h>` (port flags).
Offsets are register indices; `reg_read` and `reg_write` scale them by 4. -/

def UART_RX : Nat := 0
def UART_TX : Nat := 0
def UART_DLL : Nat := 0
def UART_DLM : Nat := 1
def UART_IER : Nat := 1
def UART_IER_RDI : Nat := 0x01
def UART_FCR : Nat := 2
def UART_FCR_CLEAR_RCVR : Nat := 0x02
def UART_FCR_CLEAR_XMIT : Nat := 0x04
def UART_LCR : Nat := 3
def UART_LCR_DLAB : Nat := 0x80
def UART_LCR_WLEN8 : Nat := 0x03
def UART_LSR : Nat := 5
def UART_LSR_DR : Nat := 0x01
def UART_LSR_OE : Nat := 0x02
def UART_LSR_PE : Nat := 0x04
def UART_LSR_FE : Nat := 0x08
def UART_LSR_BI : Nat := 0x10
def UART_LSR_THRE : Nat := 0x20
def UART_OMAP_MDR1 : Nat := 0x08
def UART_OMAP_MDR1_16X_MODE : Nat := 0x00
def UART_OMAP_MDR1_DISABLE : Nat := 0x07

def TTY_NORMAL : Nat := 0
def TTY_BREAK : Nat := 1
def TTY_FRAME : Nat := 2
def TTY_PARITY : Nat := 3

def EBUSY : Int := 16
def ENOMEM : Int := 12
def IRQ_HANDLED : Nat := 1

def UPF_BOOT_AUTOCONF : Nat := 2 ^ 28
def UPF_IOREMAP : Nat := 2 ^ 31

/-- The modulus of an unsigned 32-bit machine word. -/
def U32 : Nat := 2 ^ 32

/-! ## Data model -/

/-- Calls the driver makes to its collaborators, with the value handed back where
there is one. -/
inductive Event where
  | readl (addr val : Nat)
  | writel (val addr : Nat)
  | cpu_relax
  | uart_handle_break (claimed : Bool)
  | uart_handle_sysrq_char (ch : Nat) (claimed : Bool)
  | uart_insert_char (status overrun ch flag : Nat)
  | tty_flip_buffer_push
  | pm_runtime_enable
  | pm_runtime_get_sync
  | of_property_read_u32 (val : Nat)
  deriving DecidableEq, Repr

/-- The fields of `struct uart_icount` the driver touches (all `__u32`). -/
structure uart_icount where
  rx : Nat
  tx : Nat
  frame : Nat
  overrun : Nat
  parity : Nat
  brk : Nat
  deriving DecidableEq, Repr

/-- The circular transmit buffer `port->state->xmit`; `buf` gives the byte stored
at each index. -/
structure circ_buf where
  buf : Nat → Fin 256
  head : Nat
  tail : Nat

/-- The fields of `struct uart_port` the driver reads or writes.  `membase = 0`
is the NULL pointer. -/
structure uart_port where
  membase : Nat
  mapbase : Nat
  flags : Nat
  read_status_mask : Nat
  icount : uart_icount
  xmit : circ_buf

/-! ## Register access (lines 32-41) -/

/-- The byte address `port->membase + off * 4` both accessors compute. -/
def reg_addr (port : uart_port) (off : Nat) : Nat := port.membase + off * 4

/-- Models `reg_read`: one `readl`; `val` is what the bus returned. -/
def reg_read (port : uart_port) (off : Nat) (val : Nat) : Nat × List Event :=
  (val % U32, [Event.readl (reg_addr port off) val])

/-- Models `reg_write(port, off, val)`: one `writel(val, membase + off * 4)`. -/
def reg_write (port : uart_port) (off : Nat) (val : Nat) : List Event :=
  [Event.writel (val % U32) (reg_addr port off)]

/-! ## Receive interrupt handler (lines 56-108) -/

/-- What the collaborators answer during one pass through the loop body: the two
register values read, and the verdicts of `uart_handle_break` and
`uart_handle_sysrq_char` should they be asked. -/
structure RxIn where
  lsr : Nat
  rx : Nat
  brk : Bool
  sysrq : Bool
  deriving DecidableEq, Repr

/-- The locals and the port after one pass through the loop body, at the point
where the `while` condition is evaluated. -/
structure RxIter where
  port : uart_port
  flag : Nat
  status : Nat
  events : List Event

/-- Lines 86-100: mask the status, update `flag`, offer the byte to the sysrq
inspector and insert it.  `status` is the raw 8-bit status, `ic` the counters
after classification. -/
def rx_forward (inp : RxIn) (port : uart_port) (ic : uart_icount) (flag : Nat)
    (status ch : Nat) (ev : List Event) : RxIter :=
  let status := (status &&& port.read_status_mask) % 256
  let flag :=
    if status &&& UART_LSR_BI ≠ 0 then TTY_BREAK
    else if status &&& UART_LSR_PE ≠ 0 then TTY_PARITY
    else if status &&& UART_LSR_FE ≠ 0 then TTY_FRAME
    else flag
  let ev := ev ++ [Event.uart_handle_sysrq_char ch inp.sysrq]
  if inp.sysrq then
    { port := { port with icount := ic }, flag := flag, status := status, events := ev }
  else
    { port := { port with icount := ic }, flag := flag, status := status,
      events := ev ++ [Event.uart_insert_char status UART_LSR_OE ch flag] }

/-- Lines 67-100: one pass through the body of the `do ... while` loop.  A
`continue` ends the pass early; the `while` condition is evaluated next either
way. -/
def rx_body (inp : RxIn) (port : uart_port) (flag : Nat) : RxIter :=
  let r1 := reg_read port UART_LSR inp.lsr
  let status := r1.1 % 256
  let r2 := reg_read port UART_RX inp.rx
  let ch := r2.1 % 256
  let ev := r1.2 ++ r2.2
  let ic := { port.icount with rx := (port.icount.rx + 1) % U32 }
  if status &&& UART_LSR_BI ≠ 0 then
    let ic := { ic with brk := (ic.brk + 1) % U32 }
    let ev := ev ++ [Event.uart_handle_break inp.brk]
    if inp.brk then
      { port := { port with icount := ic }, flag := flag, status := status, events := ev }
    else rx_forward inp port ic flag status ch ev
  else if status &&& UART_LSR_PE ≠ 0 then
    rx_forward inp port { ic with parity := (ic.parity + 1) % U32 } flag status ch ev
  else if status &&& UART_LSR_FE ≠ 0 then
    rx_forward inp port { ic with frame := (ic.frame + 1) % U32 } flag status ch ev
  else if status &&& UART_LSR_OE ≠ 0 then
    rx_forward inp port { ic with overrun := (ic.overrun + 1) % U32 } flag status ch ev
  else rx_forward inp port ic flag status ch ev

/-- The `do ... while ((max_count-- > 0) && (status & (UART_LSR_DR | UART_LSR_BI)))`
loop.  The first argument is the value of `max_count` when the condition is next
evaluated, `i` numbers the pass, `env i` holds the collaborators' answers in it. -/
def rx_loop (env : Nat → RxIn) : Nat → Nat → uart_port → Nat → uart_port × List Event
  | 0, i, port, flag =>
    let r := rx_body (env i) port flag
    (r.port, r.events)
  | max_count + 1, i, port, flag =>
    let r := rx_body (env i) port flag
    if r.status &&& (UART_LSR_DR ||| UART_LSR_BI) ≠ 0 then
      let rest := rx_loop env max_count (i + 1) r.port r.flag
      (rest.1, r.events ++ rest.2)
    else (r.port, r.events)

/-- Models `serial_read_irq`: the loop entered with `flag = TTY_NORMAL` and
`max_count = 256`, then `tty_flip_buffer_push`; returns `IRQ_HANDLED`. -/
def serial_read_irq (env : Nat → RxIn) (port : uart_port) : Nat × uart_port × List Event :=
  let r := rx_loop env 256 0 port TTY_NORMAL
  (IRQ_HANDLED, r.1, r.2 ++ [Event.tty_flip_buffer_push])

/-- The `uart_insert_char` calls of a trace, as `(ch, flag)` pairs in order. -/
def inserted : List Event → List (Nat × Nat)
  | [] => []
  | Event.uart_insert_char _ _ ch flag :: rest => (ch, flag) :: inserted rest
  | _ :: rest => inserted rest

/-- Number of reads of the register at byte address `addr` in a trace. -/
def reads_at (addr : Nat) : List Event → Nat
  | [] => 0
  | Event.readl a _ :: rest => (if a = addr then 1 else 0) + reads_at addr rest
  | _ :: rest => reads_at addr rest

/-- Passes through the receive loop a trace records: each pass starts with exactly
one read of the line-status register. -/
def rx_iterations (port : uart_port) (ev : List Event) : Nat :=
  reads_at (reg_addr port UART_LSR) ev

/-- A receive FIFO holding `bytes`: while bytes remain undelivered the line status
is `UART_LSR_DR` plus the non-error bits `idle`, afterwards `idle` alone; reading
the receive register hands out the next byte, or `stale` once the FIFO is empty.
No break is reported and the sysrq inspector claims nothing. -/
def fifo_env (bytes : List Nat) (idle stale : Nat) (i : Nat) : RxIn :=
  match bytes[i]? with
  | some b => { lsr := UART_LSR_DR ||| idle, rx := b, brk := false, sysrq := false }
  | none => { lsr := idle, rx := stale, brk := false, sysrq := false }

/-- A line whose status register reads `lsr` and whose receive register reads `rx`
forever. -/
def stuck_env (lsr rx : Nat) (_ : Nat) : RxIn :=
  { lsr := lsr, rx := rx, brk := false, sysrq := false }

def icount0 : uart_icount := { rx := 0, tx := 0, frame := 0, overrun := 0, parity := 0, brk := 0 }

/-- An idle port mapped at `0x1000` with an empty transmit buffer. -/
def port0 (mask : Nat) : uart_port :=
  { membase := 0x1000, mapbase := 0x48020000, flags := UPF_BOOT_AUTOCONF ||| UPF_IOREMAP,
    read_status_mask := mask, icount := icount0,
    xmit := { buf := fun _ => 0, head := 0, tail := 0 } }

/-- Collaborator answers given pass by pass from a list, then `dflt` forever. -/
def script_env (script : List RxIn) (dflt : RxIn) (i : Nat) : RxIn :=
  script[i]?.getD dflt

/-! ## Polled transmission (lines 44-52 and 142-156) -/

/-- What a transmit routine hands back: the port, the number of line-status polls
the hardware has answered so far, and the events emitted by the call. -/
structure TxResult where
  port : uart_port
  polls : Nat
  events : List Event

/-- Models `send_char`.  `hw t` is the value the `t`-th poll of the line-status
register returns.  The busy-wait has no bound in the source; `fuel` bounds the
number of polls and `none` means the fuel ran out before the wait ended. -/
def send_char (port : uart_port) (hw : Nat → Nat) (byte : Fin 256) :
    Nat → Nat → Option (Nat × List Event)
  | 0, _ => none
  | fuel + 1, t =>
    let r := reg_read port UART_LSR (hw t)
    if r.1 &&& UART_LSR_THRE ≠ 0 then
      some (t + 1, r.2 ++ reg_write port UART_TX byte.val)
    else
      match send_char port hw byte fuel (t + 1) with
      | none => none
      | some (t2, ev) => some (t2, r.2 ++ [Event.cpu_relax] ++ ev)

/-- Models `uart_circ_empty` of `<linux/serial_core.h>`: `head == tail`. -/
def uart_circ_empty (circ : circ_buf) : Bool := circ.head == circ.tail

/-- Models `jp_start_tx`; `xmit_size` is `UART_XMIT_SIZE`.  `fuel` bounds the loop
passes and the polls of each `send_char`; `none` means it ran out. -/
def jp_start_tx (xmit_size : Nat) (hw : Nat → Nat) : Nat → uart_port → Nat → Option TxResult
  | 0, _, _ => none
  | fuel + 1, port, t =>
    if uart_circ_empty port.xmit then some { port := port, polls := t, events := [] }
    else
      match send_char port hw (port.xmit.buf port.xmit.tail) fuel t with
      | none => none
      | some (t1, ev1) =>
        let xmit := { port.xmit with tail := (port.xmit.tail + 1) &&& (xmit_size - 1) }
        let ic := { port.icount with tx := (port.icount.tx + 1) % U32 }
        match jp_start_tx xmit_size hw fuel { port with xmit := xmit, icount := ic } t1 with
        | none => none
        | some r => some { r with events := ev1 ++ r.events }

/-- The register writes of a trace, as `(address, value)` pairs in order. -/
def writes : List Event → List (Nat × Nat)
  | [] => []
  | Event.writel v a :: rest => (a, v) :: writes rest
  | _ :: rest => writes rest

/-- Checks that every `writel` of a trace comes immediately after a `readl` of the
register at `lsr` whose value has `UART_LSR_THRE` set.  `prev` says whether the
event just before the trace was such a read. -/
def guarded_from (lsr : Nat) : Bool → List Event → Bool
  | _, [] => true
  | prev, Event.writel _ _ :: rest => prev && guarded_from lsr false rest
  | _, Event.readl a w :: rest =>
    guarded_from lsr (a == lsr && (w % U32 &&& UART_LSR_THRE != 0)) rest
  | _, _ :: rest => guarded_from lsr false rest

/-- Bytes waiting in a circular buffer of capacity `size`: `(head - tail) mod size`. -/
def circ_cnt (head tail size : Nat) : Nat := (head + size - tail) % size

/-- The bytes stored from `tail` up to `head`, in transmission order:
`buf[tail], buf[(tail + 1) mod size], ..., buf[(head - 1) mod size]`. -/
def pending_bytes (circ : circ_buf) (size : Nat) : List Nat :=
  (List.range (circ_cnt circ.head circ.tail size)).map
    (fun j => (circ.buf ((circ.tail + j) % size)).val)

/-- A port with the three bytes `0x42 0x43 0x44` queued at indices 1, 2, 3 of its
transmit buffer (`tail = 1`, `head = 4`); index `i` of the buffer holds
`(0x41 + i) mod 256`. -/
def tx_port : uart_port :=
  { membase := 0x1000, mapbase := 0x48020000, flags := UPF_BOOT_AUTOCONF ||| UPF_IOREMAP,
    read_status_mask := 0xff, icount := icount0,
    xmit := { buf := fun i => ⟨(0x41 + i) % 256, Nat.mod_lt _ (by decide)⟩, head := 4, tail := 1 } }

/-! ## Startup (lines 171-200) -/

/-- Unsigned machine division, undefined for a zero divisor. -/
def udiv (a b : Nat) : Option Nat := if b = 0 then none else some (a / b)

/-- Line 184: `baud_divisor = uartclk / 16 / 115200`, left to right. -/
def baud_divisor (uartclk : Nat) : Option Nat :=
  (udiv uartclk 16).bind (fun q => udiv q 115200)

/-- Models `jp_startup`.  `clock_frequency` is what `of_property_read_u32` stores
into `uartclk` (`none`: the property is absent and `uartclk` keeps its initial 0).
The result is `none` only if a division traps. -/
def jp_startup (port : uart_port) (clock_frequency : Option Nat) : Option (Int × List Event) :=
  let uartclk := (clock_frequency.getD 0) % U32
  match baud_divisor uartclk with
  | none => none
  | some d =>
    some (0,
      [Event.pm_runtime_enable, Event.pm_runtime_get_sync, Event.of_property_read_u32 uartclk]
      ++ reg_write port UART_OMAP_MDR1 UART_OMAP_MDR1_DISABLE
      ++ reg_write port UART_LCR 0x00
      ++ reg_write port UART_LCR UART_LCR_DLAB
      ++ reg_write port UART_DLL (d &&& 0xff)
      ++ reg_write port UART_DLM ((d >>> 8) &&& 0xff)
      ++ reg_write port UART_LCR UART_LCR_WLEN8
      ++ reg_write port UART_FCR (UART_FCR_CLEAR_RCVR ||| UART_FCR_CLEAR_XMIT)
      ++ reg_write port UART_OMAP_MDR1 UART_OMAP_MDR1_16X_MODE
      ++ reg_write port UART_IER_RDI UART_IER)

/-! ## Resource acquisition (lines 215-241) -/

/-- Resources managed on behalf of a device (released by the driver core). -/
inductive Devres where
  | kmalloc
  | mem_region (start size : Nat)
  | ioremap (addr : Nat)
  | irq (line : Int)
  deriving DecidableEq, Repr

/-- The part of the kernel the lifecycle calls act on: the busy memory regions as
`(start, size)` pairs and the managed resources of the port's device. -/
structure Resources where
  regions : List (Nat × Nat)
  devres : List Devres
  deriving DecidableEq, Repr

/-- Two regions share an address. -/
def overlaps (a b : Nat × Nat) : Bool := a.1 < b.1 + b.2 && b.1 < a.1 + a.2

/-- Modelled from the spec: `devm_request_mem_region` of the kernel (not part of
the driver's source) claims the window and "fails with ResourceBusy if already
claimed"; here it fails when the window is empty, overlaps a busy region, or the
bookkeeping allocation `alloc_ok` fails, and otherwise records the claim. -/
def devm_request_mem_region (alloc_ok : Bool) (start size : Nat) (res : Resources) :
    Option Resources :=
  if alloc_ok && size != 0 && res.regions.all (fun r => !overlaps (start, size) r) then
    some { regions := (start, size) :: res.regions,
           devres := res.devres ++ [Devres.mem_region start size] }
  else none

/-- Modelled from the spec: `release_mem_region` of the kernel (not part of the
driver's source) gives back the claimed window `(start, size)`. -/
def release_mem_region (start size : Nat) (res : Resources) : Resources :=
  { res with regions := res.regions.erase (start, size) }

/-- Models `jp_request_port`.  `size` is `resource_size(pdev->resource)`,
`alloc_ok` and `ioremap` are the answers of `devm_request_mem_region`'s allocation
and of `devm_ioremap` (`0` is NULL).  Returns the status, the port and the
resources. -/
def jp_request_port (size : Nat) (alloc_ok : Bool) (ioremap : Nat) (port : uart_port)
    (res : Resources) : Int × uart_port × Resources :=
  match devm_request_mem_region alloc_ok port.mapbase size res with
  | none => (-EBUSY, port, res)
  | some res1 =>
    if port.flags &&& UPF_IOREMAP ≠ 0 then
      let port1 := { port with membase := ioremap }
      if ioremap = 0 then (-ENOMEM, port1, release_mem_region port.mapbase size res1)
      else (0, port1, { res1 with devres := res1.devres ++ [Devres.ioremap ioremap] })
    else (0, port, res1)

/-! ## Attach (lines 286-335) -/

/-- Answers of the collaborators of `jp_serial_probe`. -/
structure ProbeEnv where
  kmalloc_ok : Bool
  mem_resource : Option Nat
  irq : Int
  add_one_port : Int
  request_irq : Int
  deriving DecidableEq, Repr

/-- What an attach leaves behind: whether the port is registered with the
port-class driver `jp_uart`, the managed resources of the device, and the driver
data pointer. -/
structure ProbeState where
  port_registered : Bool
  devres : List Devres
  drvdata_set : Bool
  deriving DecidableEq, Repr

/-- Modelled from the spec: `uart_add_one_port` of the serial core (not part of
the driver's source) attaches the port to the port-class driver when it returns
0 and leaves it unattached when it returns an error. -/
def uart_add_one_port (ret : Int) (st : ProbeState) : ProbeState :=
  if ret = 0 then { st with port_registered := true } else st

/-- Models `jp_serial_probe`: the status returned and the state left behind. -/
def jp_serial_probe (env : ProbeEnv) (st : ProbeState) : Int × ProbeState :=
  if !env.kmalloc_ok then (-ENOMEM, st)
  else
    let st1 := { st with devres := st.devres ++ [Devres.kmalloc] }
    match env.mem_resource with
    | none => (-ENOMEM, st1)
    | some _ =>
      let ret := env.add_one_port
      let st2 := uart_add_one_port ret st1
      if ret ≠ 0 then (ret, st2)
      else
        let ret := env.request_irq
        if ret < 0 then (ret, st2)
        else
          (ret, { st2 with devres := st2.devres ++ [Devres.irq env.irq], drvdata_set := true })

/-- A device before any attach. -/
def probe0 : ProbeState := { port_registered := false, devres := [], drvdata_set := false }

end SerialJp

namespace SerialJp

/-! ## Bit-level facts about the 8-bit `status` -/

theorem land_low8 (x m : Nat) (hm : 255 &&& m = m) : (x % U32 % 256) &&& m = x &&& m := by
  have h1 : x % U32 % 256 = x % 2 ^ 8 := by
    have : (256 : Nat) ∣ U32 := by decide
    rw [Nat.mod_mod_of_dvd _ this]
    rfl
  rw [h1, ← Nat.and_pow_two_sub_one_eq_mod, Nat.land_assoc]
  have h2 : (2 : Nat) ^ 8 - 1 = 255 := by decide
  rw [h2, hm]

theorem reads_at_append (a : Nat) (l1 l2 : List Event) :
    reads_at a (l1 ++ l2) = reads_at a l1 + reads_at a l2 := by
  induction l1 with
  | nil => simp [reads_at]
  | cons e l ih => cases e <;> simp [reads_at, ih, Nat.add_assoc]

theorem inserted_append (l1 l2 : List Event) :
    inserted (l1 ++ l2) = inserted l1 ++ inserted l2 := by
  induction l1 with
  | nil => simp [inserted]
  | cons e l ih => cases e <;> simp [inserted, ih]

/-! ## One pass through the receive loop -/

theorem rx_forward_membase (inp : RxIn) (port : uart_port) (ic : uart_icount) (flag : Nat)
    (status ch : Nat) (ev : List Event) :
    (rx_forward inp port ic flag status ch ev).port.membase = port.membase := by
  unfold rx_forward
  split <;> rfl

theorem rx_forward_reads (a : Nat) (inp : RxIn) (port : uart_port) (ic : uart_icount)
    (flag : Nat) (status ch : Nat) (ev : List Event) :
    reads_at a (rx_forward inp port ic flag status ch ev).events = reads_at a ev := by
  unfold rx_forward
  split <;> simp [reads_at_append, reads_at]

theorem rx_body_membase (inp : RxIn) (port : uart_port) (flag : Nat) :
    (rx_body inp port flag).port.membase = port.membase := by
  simp only [rx_body]
  split_ifs <;> first | rfl | apply rx_forward_membase

/-- Every pass through the loop body reads the line-status register exactly once. -/
theorem rx_body_reads (inp : RxIn) (port : uart_port) (flag : Nat) :
    rx_iterations port (rx_body inp port flag).events = 1 := by
  simp only [rx_iterations, rx_body]
  split_ifs <;>
    simp [rx_forward_reads, reads_at_append, reads_at, reg_read, reg_addr, UART_LSR, UART_RX]

/-! ## The whole receive loop -/

theorem U32_eq : U32 = 4294967296 := by decide

theorem rx_loop_membase (env : Nat → RxIn) (mc i : Nat) (port : uart_port) (flag : Nat) :
    (rx_loop env mc i port flag).1.membase = port.membase := by
  induction mc generalizing i port flag with
  | zero => simp [rx_loop, rx_body_membase]
  | succ n ih =>
    simp only [rx_loop]
    split_ifs
    · simp [ih, rx_body_membase]
    · simp [rx_body_membase]

/-- Entered with `max_count = mc`, the loop makes at most `mc + 1` passes. -/
theorem rx_loop_iterations_le (env : Nat → RxIn) (mc i : Nat) (port : uart_port) (flag : Nat) :
    rx_iterations port (rx_loop env mc i port flag).2 ≤ mc + 1 := by
  induction mc generalizing i port flag with
  | zero => simp [rx_loop, rx_body_reads]
  | succ n ih =>
    simp only [rx_loop]
    split_ifs
    · have h1 := rx_body_reads (env i) port flag
      have h2 := ih (i + 1) (rx_body (env i) port flag).port (rx_body (env i) port flag).flag
      simp only [rx_iterations, reg_addr, rx_body_membase] at h1 h2 ⊢
      rw [reads_at_append]
      omega
    · have h1 := rx_body_reads (env i) port flag
      simp only [rx_iterations] at h1 ⊢
      omega

theorem serial_read_irq_iterations (env : Nat → RxIn) (port : uart_port) :
    rx_iterations port (serial_read_irq env port).2.2
      = rx_iterations port (rx_loop env 256 0 port TTY_NORMAL).2 := by
  simp only [serial_read_irq, rx_iterations, reads_at_append, reads_at, Nat.add_zero]

theorem serial_read_irq_port (env : Nat → RxIn) (port : uart_port) :
    (serial_read_irq env port).2.1 = (rx_loop env 256 0 port TTY_NORMAL).1 := rfl

/-- Whatever the hardware and the inspectors answer, one invocation of the handler
makes at most 257 passes through its loop. -/
theorem serial_read_irq_iterations_le (env : Nat → RxIn) (port : uart_port) :
    rx_iterations port (serial_read_irq env port).2.2 ≤ 257 := by
  rw [serial_read_irq_iterations]
  exact rx_loop_iterations_le env 256 0 port TTY_NORMAL

/-- One pass on a line that reports "data ready, transmitter idle, no error" and
whose status mask keeps all eight bits. -/
theorem rx_body_stuck (i : Nat) (port : uart_port) (flag : Nat)
    (hmask : port.read_status_mask = 0xff) :
    (rx_body (stuck_env 0x61 0x55 i) port flag).status = 0x61 ∧
    (rx_body (stuck_env 0x61 0x55 i) port flag).port.icount.rx = (port.icount.rx + 1) % U32 ∧
    (rx_body (stuck_env 0x61 0x55 i) port flag).port.read_status_mask = 0xff ∧
    (rx_body (stuck_env 0x61 0x55 i) port flag).port.membase = port.membase := by
  have a1 : (97 : Nat) &&& 16 = 0 := by decide
  have a2 : (97 : Nat) &&& 4 = 0 := by decide
  have a3 : (97 : Nat) &&& 8 = 0 := by decide
  have a4 : (97 : Nat) &&& 2 = 0 := by decide
  have a5 : ((97 : Nat) &&& 255) % 256 = 97 := by decide
  simp [rx_body, rx_forward, stuck_env, reg_read, hmask, U32, UART_LSR_BI, UART_LSR_PE,
    UART_LSR_FE, UART_LSR_OE, a1, a2, a3, a4, a5]

theorem rx_loop_stuck (mc i : Nat) (port : uart_port) (flag : Nat)
    (hmask : port.read_status_mask = 0xff) :
    rx_iterations port (rx_loop (stuck_env 0x61 0x55) mc i port flag).2 = mc + 1 ∧
    (rx_loop (stuck_env 0x61 0x55) mc i port flag).1.icount.rx
      = (port.icount.rx + (mc + 1)) % U32 := by
  induction mc generalizing i port flag with
  | zero =>
    have h := rx_body_stuck i port flag hmask
    simp [rx_loop, rx_body_reads, h.2.1]
  | succ n ih =>
    obtain ⟨hs, hrx, hm, hb⟩ := rx_body_stuck i port flag hmask
    have h1 := rx_body_reads (stuck_env 0x61 0x55 i) port flag
    have h2 := ih (i + 1) (rx_body (stuck_env 0x61 0x55 i) port flag).port
      (rx_body (stuck_env 0x61 0x55 i) port flag).flag hm
    have hc : (rx_body (stuck_env 0x61 0x55 i) port flag).status
        &&& (UART_LSR_DR ||| UART_LSR_BI) ≠ 0 := by rw [hs]; decide
    simp only [rx_loop, if_pos hc]
    simp only [rx_iterations, reg_addr, hb, hrx, U32_eq] at h1 h2 ⊢
    rw [reads_at_append]
    constructor
    · omega
    · rw [h2.2]; omega

/-- C2, evaluated on a line whose data-ready bit never clears: the handler makes
257 passes through its loop and counts 257 received bytes in one invocation, one
more than the 256 its `max_count` announces. -/
theorem serial_read_irq_stuck_line_257 :
    rx_iterations (port0 0xff) (serial_read_irq (stuck_env 0x61 0x55) (port0 0xff)).2.2 = 257 ∧
    (serial_read_irq (stuck_env 0x61 0x55) (port0 0xff)).2.1.icount.rx = 257 := by
  obtain ⟨h1, h2⟩ := rx_loop_stuck 256 0 (port0 0xff) TTY_NORMAL rfl
  rw [serial_read_irq_iterations, serial_read_irq_port, h1, h2]
  exact ⟨rfl, rfl⟩

/-- C3: in a pass of the receive loop whose raw line status has the break bit set
and in which `uart_handle_break` claims the byte, no `uart_insert_char` call is
made (the pass consists of the two register reads and the inspector call), and
`icount.brk` goes up by exactly one. -/
theorem rx_body_break_claimed (inp : RxIn) (port : uart_port) (flag : Nat)
    (hbi : inp.lsr &&& UART_LSR_BI ≠ 0) (hclaim : inp.brk = true) :
    inserted (rx_body inp port flag).events = [] ∧
    (rx_body inp port flag).events =
      [Event.readl (reg_addr port UART_LSR) inp.lsr, Event.readl (reg_addr port UART_RX) inp.rx,
        Event.uart_handle_break true] ∧
    (rx_body inp port flag).port.icount.brk = (port.icount.brk + 1) % U32 := by
  have hst : (reg_read port UART_LSR inp.lsr).1 % 256 &&& UART_LSR_BI ≠ 0 := by
    simp only [reg_read]
    rw [land_low8 _ _ (by decide)]
    exact hbi
  simp only [rx_body, if_pos hst, hclaim, if_true]
  simp [reg_read, inserted]

theorem rx_body_break_claimed_witness :
    inserted (rx_body ⟨0x11, 0x41, true, false⟩ (port0 0xff) TTY_NORMAL).events = [] ∧
    (rx_body ⟨0x11, 0x41, true, false⟩ (port0 0xff) TTY_NORMAL).events =
      [Event.readl (reg_addr (port0 0xff) UART_LSR) 0x11,
        Event.readl (reg_addr (port0 0xff) UART_RX) 0x41, Event.uart_handle_break true] ∧
    (rx_body ⟨0x11, 0x41, true, false⟩ (port0 0xff) TTY_NORMAL).port.icount.brk
      = ((port0 0xff).icount.brk + 1) % U32 :=
  rx_body_break_claimed ⟨0x11, 0x41, true, false⟩ (port0 0xff) TTY_NORMAL (by decide) rfl

/-- C1, evaluated on a FIFO holding the single byte 0x41, free of errors, with a
status mask that keeps all bits and a sysrq inspector that claims nothing: the
handler forwards the byte with `TTY_NORMAL`, then goes round once more on the
status it read before taking the byte, reads the empty FIFO, counts that read in
`icount.rx` (2, not 1) and forwards it as well. -/
theorem serial_read_irq_one_byte_counts_two :
    (serial_read_irq (fifo_env [0x41] 0x60 0) (port0 0xff)).2.1.icount.rx = 2 ∧
    inserted (serial_read_irq (fifo_env [0x41] 0x60 0) (port0 0xff)).2.2
      = [(0x41, TTY_NORMAL), (0, TTY_NORMAL)] := by
  decide

/-- C6, evaluated on a break (not claimed by the inspector) followed by the clean
byte 0x41: `flag` is set once before the loop and never put back to `TTY_NORMAL`,
so the clean byte, whose masked status 0x01 has none of the break, parity and
framing bits, is forwarded with `TTY_BREAK`. -/
theorem serial_read_irq_flag_sticks :
    (rx_body ⟨0x01, 0x41, false, false⟩ (port0 0xff) TTY_BREAK).status = 0x01 ∧
    inserted (serial_read_irq
        (script_env [⟨0x11, 0x00, false, false⟩, ⟨0x01, 0x41, false, false⟩]
          ⟨0x00, 0x00, false, false⟩) (port0 0xff)).2.2
      = [(0x00, TTY_BREAK), (0x41, TTY_BREAK), (0x00, TTY_BREAK)] := by
  decide

/-! ## Startup -/

theorem writel_mem_startup (port : uart_port) (uartclk d : Nat) :
    Event.writel (d % 256) (reg_addr port UART_DLL) ∈
      [Event.pm_runtime_enable, Event.pm_runtime_get_sync, Event.of_property_read_u32 uartclk]
      ++ reg_write port UART_OMAP_MDR1 UART_OMAP_MDR1_DISABLE
      ++ reg_write port UART_LCR 0x00
      ++ reg_write port UART_LCR UART_LCR_DLAB
      ++ reg_write port UART_DLL (d &&& 0xff)
      ++ reg_write port UART_DLM ((d >>> 8) &&& 0xff)
      ++ reg_write port UART_LCR UART_LCR_WLEN8
      ++ reg_write port UART_FCR (UART_FCR_CLEAR_RCVR ||| UART_FCR_CLEAR_XMIT)
      ++ reg_write port UART_OMAP_MDR1 UART_OMAP_MDR1_16X_MODE
      ++ reg_write port UART_IER_RDI UART_IER ∧
    Event.writel (d / 256 % 256) (reg_addr port UART_DLM) ∈
      [Event.pm_runtime_enable, Event.pm_runtime_get_sync, Event.of_property_read_u32 uartclk]
      ++ reg_write port UART_OMAP_MDR1 UART_OMAP_MDR1_DISABLE
      ++ reg_write port UART_LCR 0x00
      ++ reg_write port UART_LCR UART_LCR_DLAB
      ++ reg_write port UART_DLL (d &&& 0xff)
      ++ reg_write port UART_DLM ((d >>> 8) &&& 0xff)
      ++ reg_write port UART_LCR UART_LCR_WLEN8
      ++ reg_write port UART_FCR (UART_FCR_CLEAR_RCVR ||| UART_FCR_CLEAR_XMIT)
      ++ reg_write port UART_OMAP_MDR1 UART_OMAP_MDR1_16X_MODE
      ++ reg_write port UART_IER_RDI UART_IER := by
  have h1 : d &&& 0xff = d % 256 := Nat.and_pow_two_sub_one_eq_mod d 8
  have h2 : (d >>> 8) &&& 0xff = d / 256 % 256 := by
    rw [Nat.shiftRight_eq_div_pow]
    exact Nat.and_pow_two_sub_one_eq_mod _ 8
  have h3 : d % 256 % U32 = d % 256 := by rw [U32_eq]; omega
  have h4 : d / 256 % 256 % U32 = d / 256 % 256 := by rw [U32_eq]; omega
  simp [reg_write, h1, h2, h3, h4]

/-- C5: for every unsigned 32-bit clock frequency `f` the divisor `jp_startup`
computes exists (no division traps) and is `floor(floor(f / 16) / 115200)`:
with `q` the floor of `f / 16`, it is the `d` with `115200 * d ≤ q < 115200 * (d + 1)`;
it fits in sixteen bits and its low and high bytes are what `jp_startup` writes to
the divisor latches; it is 26 for 48,000,000 Hz and 0 for 0 Hz. -/
theorem baud_divisor_floor (f : Nat) (hf : f < U32) :
    ∃ q d, 16 * q ≤ f ∧ f < 16 * (q + 1) ∧ 115200 * d ≤ q ∧ q < 115200 * (d + 1) ∧
      baud_divisor f = some d ∧ d = f / 16 / 115200 ∧ d < 65536 ∧
      (∀ port : uart_port, ∃ ev, jp_startup port (some f) = some (0, ev) ∧
        Event.writel (d % 256) (reg_addr port UART_DLL) ∈ ev ∧
        Event.writel (d / 256 % 256) (reg_addr port UART_DLM) ∈ ev) ∧
      baud_divisor 48000000 = some 26 ∧ baud_divisor 0 = some 0 := by
  have hb : baud_divisor f = some (f / 16 / 115200) := by
    simp [baud_divisor, udiv]
  have hf2 : f < 4294967296 := by rw [← U32_eq]; exact hf
  have hd : f / 16 / 115200 < 65536 := by omega
  refine ⟨f / 16, f / 16 / 115200, by omega, by omega, by omega, by omega, hb, rfl, hd, ?_,
    by decide, by decide⟩
  intro port
  have hmod : f % U32 = f := Nat.mod_eq_of_lt hf
  refine ⟨_, ?_, writel_mem_startup port f _⟩
  simp only [jp_startup, Option.getD_some, hmod, hb]

theorem baud_divisor_floor_witness :
    ∃ q d, 16 * q ≤ 48000000 ∧ 48000000 < 16 * (q + 1) ∧ 115200 * d ≤ q ∧
      q < 115200 * (d + 1) ∧
      baud_divisor 48000000 = some d ∧ d = 48000000 / 16 / 115200 ∧ d < 65536 ∧
      (∀ port : uart_port, ∃ ev, jp_startup port (some 48000000) = some (0, ev) ∧
        Event.writel (d % 256) (reg_addr port UART_DLL) ∈ ev ∧
        Event.writel (d / 256 % 256) (reg_addr port UART_DLM) ∈ ev) ∧
      baud_divisor 48000000 = some 26 ∧ baud_divisor 0 = some 0 :=
  baud_divisor_floor 48000000 (by decide)

/-- C7: whatever the clock frequency, `jp_startup` returns 0 and its last register
write stores the value `UART_IER_RDI` at byte address `membase + 4 * UART_IER`,
the interrupt-enable register.  The call site passes the two constants in the
opposite order; both are 1, so the write is the same. -/
theorem jp_startup_enables_rx_irq (port : uart_port) (clock_frequency : Option Nat) :
    ∃ ev, jp_startup port clock_frequency = some (0, ev) ∧
      ev.getLast? = some (Event.writel UART_IER_RDI (port.membase + 4 * UART_IER)) := by
  have hb : ∀ u, baud_divisor u = some (u / 16 / 115200) := by
    intro u; simp [baud_divisor, udiv]
  simp only [jp_startup, hb]
  refine ⟨_, rfl, ?_⟩
  simp [reg_write, reg_addr, UART_IER, UART_IER_RDI, U32]

/-! ## Attach -/

/-- C8, evaluated on an attach in which `uart_add_one_port` succeeds and
`devm_request_irq` then fails with -16: `jp_serial_probe` returns -16 and the
port is still registered with the port-class driver. -/
theorem jp_serial_probe_irq_failure_keeps_port :
    jp_serial_probe
      { kmalloc_ok := true, mem_resource := some 0x48020000, irq := 74, add_one_port := 0,
        request_irq := -16 } probe0
      = (-16, { port_registered := true, devres := [Devres.kmalloc], drvdata_set := false }) := by
  decide

/-- Whenever registration succeeds and the interrupt request fails, the attach
returns the error with the port still registered. -/
theorem jp_serial_probe_irq_failure (env : ProbeEnv) (st : ProbeState) (a : Nat)
    (hk : env.kmalloc_ok = true) (hm : env.mem_resource = some a) (hadd : env.add_one_port = 0)
    (hirq : env.request_irq < 0) :
    (jp_serial_probe env st).1 = env.request_irq ∧
    (jp_serial_probe env st).2.port_registered = true := by
  simp [jp_serial_probe, uart_add_one_port, hk, hm, hadd, hirq]

/-! ## Resource acquisition -/

theorem overlaps_self (start size : Nat) (h : size ≠ 0) :
    overlaps (start, size) (start, size) = true := by
  simp [overlaps]; omega

/-- A window that is already claimed cannot be claimed again. -/
theorem devm_request_mem_region_busy (alloc_ok : Bool) (start size : Nat) (res : Resources)
    (h : (start, size) ∈ res.regions) :
    devm_request_mem_region alloc_ok start size res = none := by
  unfold devm_request_mem_region
  by_cases hs : size = 0
  · simp [hs]
  · have : res.regions.all (fun r => !overlaps (start, size) r) = false := by
      rw [List.all_eq_false]
      exact ⟨(start, size), h, by simp [overlaps_self start size hs]⟩
    simp [this]

/-- A successful `jp_request_port` leaves the window of the port among the busy
regions and does not move the window. -/
theorem jp_request_port_claims (size : Nat) (alloc_ok : Bool) (ioremap : Nat)
    (port : uart_port) (res : Resources)
    (h : (jp_request_port size alloc_ok ioremap port res).1 = 0) :
    (jp_request_port size alloc_ok ioremap port res).2.1.mapbase = port.mapbase ∧
    (port.mapbase, size) ∈ (jp_request_port size alloc_ok ioremap port res).2.2.regions := by
  unfold jp_request_port at h ⊢
  cases hreq : devm_request_mem_region alloc_ok port.mapbase size res with
  | none => simp [hreq, EBUSY] at h
  | some res1 =>
    have hmem : (port.mapbase, size) ∈ res1.regions := by
      unfold devm_request_mem_region at hreq
      split at hreq
      · cases hreq; simp
      · cases hreq
    simp only [hreq] at h ⊢
    split_ifs at h ⊢ with h1 h2
    · simp [ENOMEM] at h
    · exact ⟨rfl, hmem⟩
    · exact ⟨rfl, hmem⟩

/-- C9: after a `jp_request_port` that succeeded, a second `jp_request_port` on
the same port with no release in between returns `-EBUSY` whatever the allocator
and `devm_ioremap` would answer, and hands back the port (its `membase`
included) and the claimed regions exactly as the first call left them. -/
theorem jp_request_port_twice (size : Nat) (a1 a2 : Bool) (m1 m2 : Nat) (port : uart_port)
    (res : Resources) (hfirst : (jp_request_port size a1 m1 port res).1 = 0) :
    jp_request_port size a2 m2 (jp_request_port size a1 m1 port res).2.1
        (jp_request_port size a1 m1 port res).2.2
      = (-EBUSY, (jp_request_port size a1 m1 port res).2.1,
          (jp_request_port size a1 m1 port res).2.2) := by
  obtain ⟨hbase, hmem⟩ := jp_request_port_claims size a1 m1 port res hfirst
  generalize (jp_request_port size a1 m1 port res).2.1 = p at hbase hmem ⊢
  generalize (jp_request_port size a1 m1 port res).2.2 = r at hmem ⊢
  unfold jp_request_port
  rw [hbase, devm_request_mem_region_busy a2 port.mapbase size r hmem]

theorem jp_request_port_twice_witness :
    (jp_request_port 0x1000 true 0xfa020000 (port0 0xff) ⟨[], []⟩).2.1.membase = 0xfa020000 ∧
    jp_request_port 0x1000 true 0xfb000000
        (jp_request_port 0x1000 true 0xfa020000 (port0 0xff) ⟨[], []⟩).2.1
        (jp_request_port 0x1000 true 0xfa020000 (port0 0xff) ⟨[], []⟩).2.2
      = (-EBUSY, (jp_request_port 0x1000 true 0xfa020000 (port0 0xff) ⟨[], []⟩).2.1,
          (jp_request_port 0x1000 true 0xfa020000 (port0 0xff) ⟨[], []⟩).2.2) :=
  ⟨by decide, jp_request_port_twice 0x1000 true true 0xfa020000 0xfb000000 (port0 0xff) ⟨[], []⟩
    (by decide)⟩

/-! ## Polled transmission -/

theorem land_low32 (x m : Nat) (hm : 4294967295 &&& m = m) : (x % U32) &&& m = x &&& m := by
  have h1 : x % U32 = x % 2 ^ 32 := rfl
  rw [h1, ← Nat.and_pow_two_sub_one_eq_mod, Nat.land_assoc]
  have h2 : (2 : Nat) ^ 32 - 1 = 4294967295 := by decide
  rw [h2, hm]

theorem writes_append (l1 l2 : List Event) :
    writes (l1 ++ l2) = writes l1 ++ writes l2 := by
  induction l1 with
  | nil => simp [writes]
  | cons e l ih => cases e <;> simp [writes, ih]

theorem guarded_from_append (lsr : Nat) (l1 l2 : List Event)
    (h2 : ∀ q, guarded_from lsr q l2 = true) :
    ∀ p, guarded_from lsr p l1 = true → guarded_from lsr p (l1 ++ l2) = true := by
  induction l1 with
  | nil => intro p _; simpa using h2 p
  | cons e l ih =>
    intro p hp
    cases e <;> simp only [List.cons_append, guarded_from, Bool.and_eq_true] at hp ⊢
    all_goals first
      | exact ih _ hp
      | exact ⟨hp.1, ih _ hp.2⟩

theorem send_char_mono (port : uart_port) (hw : Nat → Nat) (byte : Fin 256) :
    ∀ (fuel fuel2 t : Nat) (r : Nat × List Event), fuel ≤ fuel2 →
      send_char port hw byte fuel t = some r → send_char port hw byte fuel2 t = some r := by
  intro fuel
  induction fuel with
  | zero => intro fuel2 t r _ h; simp [send_char] at h
  | succ n ih =>
    intro fuel2 t r hle h
    obtain ⟨m, rfl⟩ : ∃ m, fuel2 = m + 1 := ⟨fuel2 - 1, by omega⟩
    simp only [send_char] at h ⊢
    split_ifs at h ⊢ with hc
    · exact h
    · cases hrec : send_char port hw byte n (t + 1) with
      | none => simp [hrec] at h
      | some r1 =>
        rw [ih m (t + 1) r1 (by omega) hrec]
        simpa [hrec] using h

/-- If the poll `d` steps ahead finds the transmit register empty, `send_char`
returns within `d + 1` polls. -/
theorem send_char_terminates (port : uart_port) (hw : Nat → Nat) (byte : Fin 256) :
    ∀ (d t : Nat), hw (t + d) &&& UART_LSR_THRE ≠ 0 →
      ∃ r, send_char port hw byte (d + 1) t = some r := by
  intro d
  induction d with
  | zero =>
    intro t h
    have hc : (reg_read port UART_LSR (hw t)).1 &&& UART_LSR_THRE ≠ 0 := by
      simp only [reg_read]; rw [land_low32 _ _ (by decide)]; simpa using h
    simp only [send_char, if_pos hc]
    exact ⟨_, rfl⟩
  | succ n ih =>
    intro t h
    by_cases hc : (reg_read port UART_LSR (hw t)).1 &&& UART_LSR_THRE ≠ 0
    · rw [send_char]
      simp only [if_pos hc]
      exact ⟨_, rfl⟩
    · have h2 : hw (t + 1 + n) &&& UART_LSR_THRE ≠ 0 := by
        rw [Nat.add_assoc, Nat.add_comm 1 n]; exact h
      obtain ⟨r, hr⟩ := ih (t + 1) h2
      refine ⟨(r.1, (reg_read port UART_LSR (hw t)).2 ++ [Event.cpu_relax] ++ r.2), ?_⟩
      rw [send_char]
      simp only [if_neg hc, hr]

/-- What a returning `send_char` has done: it wrote `byte` to the transmit
register once, and that write, its only one, came right after a line-status read
with `UART_LSR_THRE` set. -/
theorem send_char_spec (port : uart_port) (hw : Nat → Nat) (byte : Fin 256) :
    ∀ (fuel t : Nat) (r : Nat × List Event), send_char port hw byte fuel t = some r →
      writes r.2 = [(reg_addr port UART_TX, byte.val)] ∧
      ∀ p, guarded_from (reg_addr port UART_LSR) p r.2 = true := by
  intro fuel
  induction fuel with
  | zero => intro t r h; simp [send_char] at h
  | succ n ih =>
    intro t r h
    simp only [send_char] at h
    have hb : byte.val % U32 = byte.val := by
      rw [U32_eq]; have := byte.isLt; omega
    split_ifs at h with hc
    · cases h
      refine ⟨by simp [reg_read, reg_write, writes, hb], ?_⟩
      intro p
      simp only [reg_read] at hc
      simp [reg_read, reg_write, guarded_from, hc]
    · cases hrec : send_char port hw byte n (t + 1) with
      | none => simp [hrec] at h
      | some r1 =>
        simp only [hrec, Option.some.injEq] at h
        cases h
        obtain ⟨hw1, hg1⟩ := ih (t + 1) r1 hrec
        refine ⟨by simp [reg_read, writes, writes_append, hw1], ?_⟩
        intro p
        simp only [reg_read, List.cons_append, List.nil_append, List.append_assoc, guarded_from]
        exact hg1 _

theorem mod_two_range (x n : Nat) (h : x < 2 * n) :
    x % n = if x < n then x else x - n := by
  split_ifs with h1
  · exact Nat.mod_eq_of_lt h1
  · rw [Nat.mod_eq_sub_mod (by omega)]
    exact Nat.mod_eq_of_lt (by omega)

theorem circ_cnt_self (h n : Nat) : circ_cnt h h n = 0 := by
  simp [circ_cnt]

/-- Taking one byte out of a non-empty buffer lowers the count by one. -/
theorem circ_cnt_step (h t n : Nat) (hh : h < n) (ht : t < n) (hne : h ≠ t) :
    circ_cnt h t n = circ_cnt h ((t + 1) % n) n + 1 := by
  simp only [circ_cnt]
  rw [mod_two_range (t + 1) n (by omega)]
  split_ifs with h1
  · rw [mod_two_range (h + n - t) n (by omega), mod_two_range (h + n - (t + 1)) n (by omega)]
    split_ifs <;> omega
  · have : t + 1 - n = 0 := by omega
    rw [this, mod_two_range (h + n - t) n (by omega), mod_two_range (h + n - 0) n (by omega)]
    split_ifs <;> omega

theorem pending_bytes_step (circ : circ_buf) (n : Nat) (hh : circ.head < n) (ht : circ.tail < n)
    (hne : circ.head ≠ circ.tail) :
    pending_bytes circ n = (circ.buf circ.tail).val ::
      pending_bytes { circ with tail := (circ.tail + 1) % n } n := by
  simp only [pending_bytes]
  rw [circ_cnt_step circ.head circ.tail n hh ht hne, List.range_succ_eq_map, List.map_cons,
    List.map_map]
  congr 1
  · simp [Nat.mod_eq_of_lt ht]
  · apply List.map_congr_left
    intro j _
    simp only [Function.comp]
    congr 2
    rw [Nat.mod_add_mod]
    congr 1
    omega

theorem jp_start_tx_mono (size : Nat) (hw : Nat → Nat) :
    ∀ (fuel fuel2 : Nat) (port : uart_port) (t : Nat) (r : TxResult), fuel ≤ fuel2 →
      jp_start_tx size hw fuel port t = some r → jp_start_tx size hw fuel2 port t = some r := by
  intro fuel
  induction fuel with
  | zero => intro fuel2 port t r _ h; simp [jp_start_tx] at h
  | succ n ih =>
    intro fuel2 port t r hle h
    obtain ⟨m, rfl⟩ : ∃ m, fuel2 = m + 1 := ⟨fuel2 - 1, by omega⟩
    rw [jp_start_tx] at h ⊢
    split_ifs at h ⊢ with hc
    · exact h
    · cases hs : send_char port hw (port.xmit.buf port.xmit.tail) n t with
      | none => simp [hs] at h
      | some r1 =>
        obtain ⟨t1, ev1⟩ := r1
        rw [send_char_mono port hw _ n m t (t1, ev1) (by omega) hs]
        simp only [hs] at h ⊢
        cases hrec : jp_start_tx size hw n
            { port with
              xmit := { port.xmit with tail := (port.xmit.tail + 1) &&& (size - 1) },
              icount := { port.icount with tx := (port.icount.tx + 1) % U32 } } t1 with
        | none => simp [hrec] at h
        | some r2 =>
          rw [ih m _ t1 r2 (by omega) hrec]
          simpa [hrec] using h

/-- What a returning `jp_start_tx` has done, for a buffer of capacity `2 ^ k`. -/
theorem jp_start_tx_spec (k : Nat) (hw : Nat → Nat) :
    ∀ (fuel : Nat) (port : uart_port) (t : Nat) (r : TxResult),
      port.xmit.head < 2 ^ k → port.xmit.tail < 2 ^ k →
      jp_start_tx (2 ^ k) hw fuel port t = some r →
      r.port.xmit.tail = port.xmit.head ∧ r.port.xmit.head = port.xmit.head ∧
      r.port.xmit.buf = port.xmit.buf ∧ r.port.membase = port.membase ∧
      r.port.icount.tx % U32
        = (port.icount.tx + circ_cnt port.xmit.head port.xmit.tail (2 ^ k)) % U32 ∧
      (port.icount.tx < U32 → r.port.icount.tx < U32) ∧
      writes r.events
        = (pending_bytes port.xmit (2 ^ k)).map (fun b => (reg_addr port UART_TX, b)) ∧
      ∀ p, guarded_from (reg_addr port UART_LSR) p r.events = true := by
  intro fuel
  induction fuel with
  | zero => intro port t r _ _ h; simp [jp_start_tx] at h
  | succ n ih =>
    intro port t r hh ht h
    rw [jp_start_tx] at h
    split_ifs at h with hc
    · cases h
      have heq : port.xmit.head = port.xmit.tail := by simpa [uart_circ_empty] using hc
      refine ⟨heq.symm, rfl, rfl, rfl, ?_, fun h => h, ?_, ?_⟩
      · rw [heq, circ_cnt_self, Nat.add_zero]
      · simp [pending_bytes, heq, circ_cnt_self, writes]
      · intro p; simp [guarded_from]
    · have hne : port.xmit.head ≠ port.xmit.tail := by simpa [uart_circ_empty] using hc
      cases hs : send_char port hw (port.xmit.buf port.xmit.tail) n t with
      | none => simp [hs] at h
      | some r1 =>
        obtain ⟨t1, ev1⟩ := r1
        simp only [hs, Nat.and_pow_two_sub_one_eq_mod] at h
        cases hrec : jp_start_tx (2 ^ k) hw n
            { port with
              xmit := { port.xmit with tail := (port.xmit.tail + 1) % 2 ^ k },
              icount := { port.icount with tx := (port.icount.tx + 1) % U32 } } t1 with
        | none => simp [hrec] at h
        | some r2 =>
          simp only [hrec, Option.some.injEq] at h
          cases h
          have hpos : 0 < 2 ^ k := Nat.pos_of_ne_zero (by positivity)
          have hU : 0 < U32 := by decide
          obtain ⟨e1, e2, e3, e4, e5, e5b, e6, e7⟩ :=
            ih { port with
                 xmit := { port.xmit with tail := (port.xmit.tail + 1) % 2 ^ k },
                 icount := { port.icount with tx := (port.icount.tx + 1) % U32 } } t1 r2
              hh (Nat.mod_lt _ hpos) hrec
          obtain ⟨w1, g1⟩ := send_char_spec port hw _ n t (t1, ev1) hs
          have hstep := circ_cnt_step port.xmit.head port.xmit.tail (2 ^ k) hh ht hne
          refine ⟨e1, e2, e3, e4, ?_, fun _ => e5b (Nat.mod_lt _ hU), ?_, ?_⟩
          · rw [e5, hstep]
            simp only [U32_eq]
            omega
          · rw [writes_append, w1, pending_bytes_step port.xmit (2 ^ k) hh ht hne]
            simp only [reg_addr] at e6 ⊢
            rw [e6]
            rfl
          · intro p
            exact guarded_from_append _ _ _ e7 p (g1 p)

/-- If every wait for the transmit register ends, `jp_start_tx` returns. -/
theorem jp_start_tx_terminates (k : Nat) (hw : Nat → Nat)
    (hhw : ∀ t, ∃ t2, t ≤ t2 ∧ hw t2 &&& UART_LSR_THRE ≠ 0) :
    ∀ (d : Nat) (port : uart_port) (t : Nat),
      port.xmit.head < 2 ^ k → port.xmit.tail < 2 ^ k →
      circ_cnt port.xmit.head port.xmit.tail (2 ^ k) = d →
      ∃ fuel r, jp_start_tx (2 ^ k) hw fuel port t = some r := by
  intro d
  induction d with
  | zero =>
    intro port t hh ht hd
    have heq : port.xmit.head = port.xmit.tail := by
      by_contra hne
      have := circ_cnt_step port.xmit.head port.xmit.tail (2 ^ k) hh ht hne
      omega
    refine ⟨1, { port := port, polls := t, events := [] }, ?_⟩
    simp [jp_start_tx, uart_circ_empty, heq]
  | succ n ih =>
    intro port t hh ht hd
    have hne : port.xmit.head ≠ port.xmit.tail := by
      intro heq
      rw [heq, circ_cnt_self] at hd
      omega
    have hc : ¬ uart_circ_empty port.xmit = true := by simpa [uart_circ_empty] using hne
    obtain ⟨t2, hle, hthre⟩ := hhw t
    obtain ⟨e, rfl⟩ : ∃ e, t2 = t + e := ⟨t2 - t, by omega⟩
    obtain ⟨r1, hs⟩ := send_char_terminates port hw (port.xmit.buf port.xmit.tail) e t hthre
    obtain ⟨t1, ev1⟩ := r1
    have hpos : 0 < 2 ^ k := Nat.pos_of_ne_zero (by positivity)
    have hstep := circ_cnt_step port.xmit.head port.xmit.tail (2 ^ k) hh ht hne
    obtain ⟨f2, r2, hrec⟩ := ih
      { port with
        xmit := { port.xmit with tail := (port.xmit.tail + 1) % 2 ^ k },
        icount := { port.icount with tx := (port.icount.tx + 1) % U32 } } t1
      hh (Nat.mod_lt _ hpos) (by simp only; omega)
    refine ⟨max (e + 1) f2 + 1, { r2 with events := ev1 ++ r2.events }, ?_⟩
    rw [jp_start_tx]
    simp only [if_neg hc]
    rw [send_char_mono port hw _ (e + 1) _ t (t1, ev1) (Nat.le_max_left _ _) hs]
    simp only [Nat.and_pow_two_sub_one_eq_mod]
    rw [jp_start_tx_mono (2 ^ k) hw f2 _ _ t1 r2 (Nat.le_max_right _ _) hrec]

/-- The check `guarded_from` rejects a write that follows nothing, and a write that
follows a line-status read without `UART_LSR_THRE`. -/
theorem guarded_from_rejects :
    guarded_from 0x1014 false [Event.writel 0x42 0x1000] = false ∧
    guarded_from 0x1014 false [Event.readl 0x1014 0x40, Event.writel 0x42 0x1000] = false ∧
    guarded_from 0x1014 false [Event.readl 0x1014 0x60, Event.cpu_relax,
      Event.writel 0x42 0x1000] = false := by
  decide

/-- A run of `jp_start_tx` on `tx_port` with a transmitter that is busy on every
even poll: each byte is written after one failed and one successful poll. -/
theorem jp_start_tx_run :
    (jp_start_tx (2 ^ 12) (fun t => if t % 2 = 0 then 0x40 else 0x60) 6 tx_port 0).map
        (fun r => (r.events, r.port.xmit.tail, r.port.icount.tx, r.polls))
      = some ([Event.readl 0x1014 0x40, Event.cpu_relax, Event.readl 0x1014 0x60,
          Event.writel 0x42 0x1000,
          Event.readl 0x1014 0x40, Event.cpu_relax, Event.readl 0x1014 0x60,
          Event.writel 0x43 0x1000,
          Event.readl 0x1014 0x40, Event.cpu_relax, Event.readl 0x1014 0x60,
          Event.writel 0x44 0x1000], 4, 3, 6) := by
  decide

/-- C4: for a transmit buffer of capacity `2 ^ k` with head and tail inside it,
and hardware on which every wait for `UART_LSR_THRE` ends, `jp_start_tx` returns,
and whenever it returns the tail equals the head, the head is unchanged, and
`icount.tx` (a 32-bit counter, below `2 ^ 32` at entry) has gone up by
`(head - tail) mod 2 ^ k`, the number of bytes queued at entry: modulo `2 ^ 32`
in general, exactly when the sum stays below `2 ^ 32`. -/
theorem jp_start_tx_drains (k : Nat) (hw : Nat → Nat) (port : uart_port) (t : Nat)
    (hhead : port.xmit.head < 2 ^ k) (htail : port.xmit.tail < 2 ^ k)
    (htx : port.icount.tx < U32)
    (hhw : ∀ t, ∃ t2, t ≤ t2 ∧ hw t2 &&& UART_LSR_THRE ≠ 0) :
    (∃ fuel r, jp_start_tx (2 ^ k) hw fuel port t = some r) ∧
    ∀ fuel r, jp_start_tx (2 ^ k) hw fuel port t = some r →
      r.port.xmit.tail = port.xmit.head ∧ r.port.xmit.head = port.xmit.head ∧
      r.port.icount.tx
        = (port.icount.tx + (port.xmit.head + 2 ^ k - port.xmit.tail) % 2 ^ k) % U32 ∧
      (port.icount.tx + (port.xmit.head + 2 ^ k - port.xmit.tail) % 2 ^ k < U32 →
        r.port.icount.tx
          = port.icount.tx + (port.xmit.head + 2 ^ k - port.xmit.tail) % 2 ^ k) := by
  refine ⟨jp_start_tx_terminates k hw hhw _ port t hhead htail rfl, ?_⟩
  intro fuel r h
  obtain ⟨e1, e2, _, _, e5, e5b, _, _⟩ := jp_start_tx_spec k hw fuel port t r hhead htail h
  have e6 : r.port.icount.tx
      = (port.icount.tx + (port.xmit.head + 2 ^ k - port.xmit.tail) % 2 ^ k) % U32 := by
    rw [← Nat.mod_eq_of_lt (e5b htx)]
    exact e5
  refine ⟨e1, e2, e6, ?_⟩
  intro hlt
  rw [e6, Nat.mod_eq_of_lt hlt]

theorem jp_start_tx_drains_witness :
    (∃ fuel r, jp_start_tx (2 ^ 12) (fun _ => 0x60) fuel tx_port 0 = some r) ∧
    ∀ fuel r, jp_start_tx (2 ^ 12) (fun _ => 0x60) fuel tx_port 0 = some r →
      r.port.xmit.tail = tx_port.xmit.head ∧ r.port.xmit.head = tx_port.xmit.head ∧
      r.port.icount.tx
        = (tx_port.icount.tx + (tx_port.xmit.head + 2 ^ 12 - tx_port.xmit.tail) % 2 ^ 12) % U32 ∧
      (tx_port.icount.tx + (tx_port.xmit.head + 2 ^ 12 - tx_port.xmit.tail) % 2 ^ 12 < U32 →
        r.port.icount.tx
          = tx_port.icount.tx + (tx_port.xmit.head + 2 ^ 12 - tx_port.xmit.tail) % 2 ^ 12) :=
  jp_start_tx_drains 12 (fun _ => 0x60) tx_port 0 (by decide) (by decide) (by decide)
    (fun t => ⟨t, Nat.le_refl t, (by decide : (0x60 : Nat) &&& UART_LSR_THRE ≠ 0)⟩)

/-- C10: for a transmit buffer of capacity `2 ^ k` with head and tail inside it,
and hardware on which every wait for `UART_LSR_THRE` ends, `jp_start_tx` returns,
and whenever it returns its register writes are exactly the queued bytes
`buf[tail], buf[(tail + 1) mod 2 ^ k], ..., buf[(head - 1) mod 2 ^ k]`, in that
order and once each, all to the transmit register; every write comes right after
a line-status read with `UART_LSR_THRE` set; the buffer contents are unchanged. -/
theorem jp_start_tx_writes (k : Nat) (hw : Nat → Nat) (port : uart_port) (t : Nat)
    (hhead : port.xmit.head < 2 ^ k) (htail : port.xmit.tail < 2 ^ k)
    (hhw : ∀ t, ∃ t2, t ≤ t2 ∧ hw t2 &&& UART_LSR_THRE ≠ 0) :
    (∃ fuel r, jp_start_tx (2 ^ k) hw fuel port t = some r) ∧
    ∀ fuel r, jp_start_tx (2 ^ k) hw fuel port t = some r →
      writes r.events
        = (pending_bytes port.xmit (2 ^ k)).map (fun b => (port.membase + UART_TX * 4, b)) ∧
      guarded_from (port.membase + UART_LSR * 4) false r.events = true ∧
      r.port.xmit.buf = port.xmit.buf := by
  refine ⟨jp_start_tx_terminates k hw hhw _ port t hhead htail rfl, ?_⟩
  intro fuel r h
  obtain ⟨_, _, e3, _, _, _, e6, e7⟩ := jp_start_tx_spec k hw fuel port t r hhead htail h
  exact ⟨e6, e7 false, e3⟩

theorem jp_start_tx_writes_witness :
    pending_bytes tx_port.xmit (2 ^ 12) = [0x42, 0x43, 0x44] ∧
    ((∃ fuel r, jp_start_tx (2 ^ 12) (fun _ => 0x60) fuel tx_port 0 = some r) ∧
    ∀ fuel r, jp_start_tx (2 ^ 12) (fun _ => 0x60) fuel tx_port 0 = some r →
      writes r.events
        = (pending_bytes tx_port.xmit (2 ^ 12)).map
            (fun b => (tx_port.membase + UART_TX * 4, b)) ∧
      guarded_from (tx_port.membase + UART_LSR * 4) false r.events = true ∧
      r.port.xmit.buf = tx_port.xmit.buf) :=
  ⟨by decide, jp_start_tx_writes 12 (fun _ => 0x60) tx_port 0 (by decide) (by decide)
    (fun t => ⟨t, Nat.le_refl t, (by decide : (0x60 : Nat) &&& UART_LSR_THRE ≠ 0)⟩)⟩


theorem land_two_pow_eq_zero_iff (s n : Nat) : s &&& 2 ^ n = 0 ↔ s.testBit n = false := by
  constructor
  · intro h
    have := congrArg (fun y => Nat.testBit y n) h
    simpa [Nat.testBit_two_pow_self] using this
  · intro h
    apply Nat.eq_of_testBit_eq
    intro i
    simp only [Nat.testBit_and, Nat.testBit_two_pow, Nat.zero_testBit]
    by_cases hi : n = i
    · subst hi; simp [h]
    · simp [hi]

theorem land_mod256 (y m : Nat) (hm : 255 &&& m = m) : (y % 256) &&& m = y &&& m := by
  have h1 : y % 256 = y % 2 ^ 8 := rfl
  rw [h1, ← Nat.and_pow_two_sub_one_eq_mod, Nat.land_assoc]
  have h2 : (2 : Nat) ^ 8 - 1 = 255 := by decide
  rw [h2, hm]

/-- A status bit that is clear stays clear under the status mask. -/
theorem masked_clear (s mask n : Nat) (hn : 255 &&& 2 ^ n = 2 ^ n) (h : s &&& 2 ^ n = 0) :
    ((s &&& mask) % 256) &&& 2 ^ n = 0 := by
  rw [land_mod256 _ _ hn, land_two_pow_eq_zero_iff, Nat.testBit_and,
    (land_two_pow_eq_zero_iff s n).1 h]
  rfl

theorem lor_eq_zero_iff (a b : Nat) : a ||| b = 0 ↔ a = 0 ∧ b = 0 := by
  constructor
  · intro h
    have hb : ∀ i, (a.testBit i || b.testBit i) = false := by
      intro i
      rw [← Nat.testBit_or, h]
      exact Nat.zero_testBit i
    constructor <;> apply Nat.eq_of_testBit_eq <;> intro i <;> have := hb i <;> simp_all
  · rintro ⟨rfl, rfl⟩
    rfl

/-- The loop goes on exactly when the masked status has data-ready or break. -/
theorem land_dr_bi (s : Nat) :
    s &&& (UART_LSR_DR ||| UART_LSR_BI) = 0 ↔ s &&& 2 ^ 0 = 0 ∧ s &&& 2 ^ 4 = 0 := by
  have e : UART_LSR_DR ||| UART_LSR_BI = 2 ^ 0 ||| 2 ^ 4 := by decide
  rw [e, Nat.and_or_distrib_left, lor_eq_zero_iff]

/-- One pass on a status without break, parity, framing or overrun, with a sysrq
inspector that declines: the byte is counted and inserted with the flag carried
over from the previous pass. -/
theorem rx_body_clean (inp : RxIn) (port : uart_port) (flag : Nat)
    (h1 : inp.lsr &&& 2 ^ 1 = 0) (h2 : inp.lsr &&& 2 ^ 2 = 0) (h3 : inp.lsr &&& 2 ^ 3 = 0)
    (h4 : inp.lsr &&& 2 ^ 4 = 0) (hs : inp.sysrq = false) :
    (rx_body inp port flag).port
      = { port with icount := { port.icount with rx := (port.icount.rx + 1) % U32 } } ∧
    (rx_body inp port flag).flag = flag ∧
    (rx_body inp port flag).status = (inp.lsr % U32 % 256 &&& port.read_status_mask) % 256 ∧
    inserted (rx_body inp port flag).events = [(inp.rx % U32 % 256, flag)] := by
  have a4 : inp.lsr % U32 % 256 &&& UART_LSR_BI = 0 := by
    rw [land_low8 _ _ (by decide)]; exact h4
  have a3 : inp.lsr % U32 % 256 &&& UART_LSR_FE = 0 := by
    rw [land_low8 _ _ (by decide)]; exact h3
  have a2 : inp.lsr % U32 % 256 &&& UART_LSR_PE = 0 := by
    rw [land_low8 _ _ (by decide)]; exact h2
  have a1 : inp.lsr % U32 % 256 &&& UART_LSR_OE = 0 := by
    rw [land_low8 _ _ (by decide)]; exact h1
  have b4 : (inp.lsr % U32 % 256 &&& port.read_status_mask) % 256 &&& UART_LSR_BI = 0 :=
    masked_clear _ _ 4 (by decide) a4
  have b3 : (inp.lsr % U32 % 256 &&& port.read_status_mask) % 256 &&& UART_LSR_FE = 0 :=
    masked_clear _ _ 3 (by decide) a3
  have b2 : (inp.lsr % U32 % 256 &&& port.read_status_mask) % 256 &&& UART_LSR_PE = 0 :=
    masked_clear _ _ 2 (by decide) a2
  simp [rx_body, rx_forward, reg_read, a1, a2, a3, a4, b2, b3, b4, hs, inserted]

theorem fifo_env_some (bytes : List Nat) (idle stale i : Nat) (h : i < bytes.length) :
    fifo_env bytes idle stale i
      = { lsr := UART_LSR_DR ||| idle, rx := bytes[i], brk := false, sysrq := false } := by
  simp [fifo_env, List.getElem?_eq_getElem h]

theorem fifo_env_none (bytes : List Nat) (idle stale i : Nat) (h : bytes.length ≤ i) :
    fifo_env bytes idle stale i
      = { lsr := idle, rx := stale, brk := false, sysrq := false } := by
  simp [fifo_env, List.getElem?_eq_none h]

theorem idle_bit (idle j : Nat) (hj : 31 &&& 2 ^ j = 2 ^ j) (h : idle &&& 31 = 0) :
    idle &&& 2 ^ j = 0 := by
  rw [← hj, ← Nat.land_assoc, h, Nat.zero_and]

theorem ready_bit (idle j : Nat) (hj : 31 &&& 2 ^ j = 2 ^ j) (h1 : 1 &&& 2 ^ j = 0)
    (h : idle &&& 31 = 0) : (UART_LSR_DR ||| idle) &&& 2 ^ j = 0 := by
  rw [Nat.land_comm, Nat.and_or_distrib_left, Nat.land_comm _ idle, idle_bit idle j hj h,
    lor_eq_zero_iff, Nat.land_comm]
  exact ⟨h1, rfl⟩

/-- A status bit set both in the raw status and in the mask survives masking. -/
theorem masked_set (x mask n : Nat) (hn : n < 8) (hx : x.testBit n = true)
    (hm : mask.testBit n = true) : ((x % U32 % 256 &&& mask) % 256) &&& 2 ^ n ≠ 0 := by
  rw [Ne, land_two_pow_eq_zero_iff]
  have e1 : (256 : Nat) = 2 ^ 8 := rfl
  have e2 : U32 = 2 ^ 32 := rfl
  rw [e1, e2, Nat.testBit_mod_two_pow, Nat.testBit_and, Nat.testBit_mod_two_pow,
    Nat.testBit_mod_two_pow, hx, hm]
  have h32 : n < 32 := by omega
  simp [hn, h32]

/-- The receive loop on a FIFO holding `bytes` from position `i` on, entered with
enough budget to reach the end of the FIFO: it counts and inserts each remaining
byte and then, on the status read before the last byte was taken, one read of
the empty FIFO more. -/
theorem rx_loop_fifo (bytes : List Nat) (idle stale : Nat) (hidle : idle &&& 31 = 0) :
    ∀ (mc i : Nat) (port : uart_port) (flag : Nat),
      port.read_status_mask &&& UART_LSR_DR ≠ 0 → i ≤ bytes.length → bytes.length ≤ i + mc →
      (rx_loop (fifo_env bytes idle stale) mc i port flag).1.icount.rx
        = (port.icount.rx + (bytes.length - i + 1)) % U32 ∧
      inserted (rx_loop (fifo_env bytes idle stale) mc i port flag).2
        = (bytes.drop i).map (fun b => (b % U32 % 256, flag)) ++ [(stale % U32 % 256, flag)] := by
  have hstop : ∀ (port : uart_port) (flag : Nat) (i : Nat), bytes.length ≤ i →
      (rx_body (fifo_env bytes idle stale i) port flag).status
        &&& (UART_LSR_DR ||| UART_LSR_BI) = 0 ∧
      (rx_body (fifo_env bytes idle stale i) port flag).port.icount.rx
        = (port.icount.rx + 1) % U32 ∧
      inserted (rx_body (fifo_env bytes idle stale i) port flag).events
        = [(stale % U32 % 256, flag)] := by
    intro port flag i hi
    rw [fifo_env_none bytes idle stale i hi]
    obtain ⟨e1, _, e3, e4⟩ := rx_body_clean ⟨idle, stale, false, false⟩ port flag
      (idle_bit idle 1 (by decide) hidle) (idle_bit idle 2 (by decide) hidle)
      (idle_bit idle 3 (by decide) hidle) (idle_bit idle 4 (by decide) hidle) rfl
    refine ⟨?_, by rw [e1], e4⟩
    rw [e3, land_dr_bi]
    have h0 : idle % U32 % 256 &&& 2 ^ 0 = 0 := by
      rw [land_low8 _ _ (by decide)]; exact idle_bit idle 0 (by decide) hidle
    have h4 : idle % U32 % 256 &&& 2 ^ 4 = 0 := by
      rw [land_low8 _ _ (by decide)]; exact idle_bit idle 4 (by decide) hidle
    exact ⟨masked_clear _ _ 0 (by decide) h0, masked_clear _ _ 4 (by decide) h4⟩
  intro mc
  induction mc with
  | zero =>
    intro port_i port flag _ hi hle
    have hlen : bytes.length ≤ port_i := by omega
    obtain ⟨_, s2, s3⟩ := hstop port flag port_i hlen
    have hd : bytes.drop port_i = [] := List.drop_eq_nil_of_le hlen
    have hz : bytes.length - port_i + 1 = 1 := by omega
    simp only [rx_loop, s2, s3, hd, hz, List.map_nil, List.nil_append, and_self]
  | succ n ih =>
    intro i port flag hmask hi hle
    by_cases hlt : i < bytes.length
    · rw [rx_loop]
      rw [fifo_env_some bytes idle stale i hlt]
      obtain ⟨e1, e2, e3, e4⟩ := rx_body_clean ⟨UART_LSR_DR ||| idle, bytes[i], false, false⟩
        port flag (ready_bit idle 1 (by decide) (by decide) hidle)
        (ready_bit idle 2 (by decide) (by decide) hidle)
        (ready_bit idle 3 (by decide) (by decide) hidle)
        (ready_bit idle 4 (by decide) (by decide) hidle) rfl
      have hm0 : port.read_status_mask.testBit 0 = true := by
        by_contra hc
        exact hmask ((land_two_pow_eq_zero_iff _ 0).2 (by simpa using hc))
      have hx0 : (UART_LSR_DR ||| idle).testBit 0 = true := by
        rw [Nat.testBit_or]
        have : UART_LSR_DR.testBit 0 = true := by decide
        rw [this]; rfl
      have hgo : (rx_body ⟨UART_LSR_DR ||| idle, bytes[i], false, false⟩ port flag).status
          &&& (UART_LSR_DR ||| UART_LSR_BI) ≠ 0 := by
        rw [e3, Ne, land_dr_bi]
        intro hc
        exact masked_set _ _ 0 (by decide) hx0 hm0 hc.1
      simp only [if_pos hgo]
      have hmask2 : (rx_body ⟨UART_LSR_DR ||| idle, bytes[i], false, false⟩ port
          flag).port.read_status_mask &&& UART_LSR_DR ≠ 0 := by rw [e1]; exact hmask
      rw [e2]
      obtain ⟨r1, r2⟩ := ih (i + 1) _ flag hmask2 (by omega) (by omega)
      rw [r1, inserted_append, r2, e4, e1, List.drop_eq_getElem_cons hlt]
      simp only [U32_eq, List.map_cons, List.singleton_append, List.cons_append,
        List.nil_append, and_true]
      omega
    · have hlen : bytes.length ≤ i := by omega
      obtain ⟨s1, s2, s3⟩ := hstop port flag i hlen
      have hd : bytes.drop i = [] := List.drop_eq_nil_of_le hlen
      have hz : bytes.length - i + 1 = 1 := by omega
      rw [rx_loop]
      simp only [s1, ne_eq, not_true_eq_false, if_false, s2, s3, hd, hz, List.map_nil,
        List.nil_append, and_self]

/-- The receive handler on an error-free FIFO of `n ≤ 256` bytes whose data-ready
bit is set exactly while bytes remain, with a status mask that keeps data-ready
and a sysrq inspector that declines: every byte is inserted with `TTY_NORMAL`,
followed by one read of the empty FIFO, and `icount.rx` goes up by `n + 1`. -/
theorem serial_read_irq_fifo (bytes : List Nat) (idle stale : Nat) (port : uart_port)
    (hlen : bytes.length ≤ 256) (hidle : idle &&& 31 = 0)
    (hmask : port.read_status_mask &&& UART_LSR_DR ≠ 0) :
    (serial_read_irq (fifo_env bytes idle stale) port).2.1.icount.rx
      = (port.icount.rx + (bytes.length + 1)) % U32 ∧
    inserted (serial_read_irq (fifo_env bytes idle stale) port).2.2
      = bytes.map (fun b => (b % U32 % 256, TTY_NORMAL)) ++ [(stale % U32 % 256, TTY_NORMAL)] := by
  obtain ⟨h1, h2⟩ := rx_loop_fifo bytes idle stale hidle 256 0 port TTY_NORMAL hmask
    (Nat.zero_le _) (by omega)
  rw [serial_read_irq_port, h1]
  refine ⟨rfl, ?_⟩
  simp only [serial_read_irq, inserted_append, h2, inserted, List.drop_zero, List.append_nil]

end SerialJp
